import Mathlib

/-!
Verification of the repository-state cache and event-propagation layer of the
git-pulse editor extension: the typed publish/subscribe hub (`EventBus`,
src/core/eventBus.ts), the TTL-keyed repository cache (`RepositoryManager`,
appended to src/core/gitService.ts), and the optimistic changes-view cache
(`ChangesProvider`, the changes tree provider module).

The embedding is shallow: each TypeScript method becomes a Lean function on an
explicit state value.  Asynchronous methods are split at their suspension
points (the code is single-threaded and cooperative, so every synchronous
segment runs atomically); calls into the external git backend are passed in as
`Option`-valued outcomes (`none` models a rejected promise).  Emitted events
are returned as a list of event tags; payloads are irrelevant to the
properties proved here and are not modelled.  Objects mutated in place by the
changes-view patch operations are modelled with an explicit object store
(`Heap`), so that aliasing between a cached snapshot and an earlier reader's
reference is observable.
-/

/-- Association-list lookup with JavaScript `Map.get` semantics:
the value of the first pair whose key equals `k`, if any. -/
def alistLookup {κ α : Type} [DecidableEq κ] (c : List (κ × α)) (k : κ) : Option α :=
  (c.find? (fun p => decide (p.1 = k))).map (·.2)

/-- Association-list deletion (`Map.delete`): drop every pair with key `k`. -/
def alistErase {κ α : Type} [DecidableEq κ] (c : List (κ × α)) (k : κ) : List (κ × α) :=
  c.filter (fun p => decide (¬ p.1 = k))

/-- Association-list write (`Map.set`): replace any existing pair with key `k`.
The position of the pair in the list is immaterial: none of the embedded code
iterates over a map in a way the claims observe. -/
def alistInsert {κ α : Type} [DecidableEq κ] (c : List (κ × α)) (k : κ) (v : α) :
    List (κ × α) :=
  alistErase c k ++ [(k, v)]

/-! ## Event Hub (`EventBus`, src/core/eventBus.ts) -/

/-- The closed event-tag enumeration of src/core/eventBus.ts. -/
inductive EventType where
  | RepositoryChanged
  | RepositoryDetected
  | BranchCreated
  | BranchDeleted
  | BranchSwitched
  | CommitCreated
  | CommitAmended
  | StashCreated
  | StashApplied
  | StashDropped
  | DiffChanged
  | RebaseStarted
  | RebaseCompleted
  | RebaseAborted
  | MergeStarted
  | MergeCompleted
  | MergeConflict
  | RemoteUpdated
  | PushCompleted
  | PullCompleted
  | ErrorOccurred
deriving DecidableEq, Repr

/-- A `WrappedHandler` of eventBus.ts: the handler function is identified by a
numeric id (each subscription wraps a fresh object, so object identity is
modelled by ids that the state keeps distinct); `once` marks subscriptions made
through `EventBus.once`. -/
structure WrappedHandler where
  id : Nat
  once : Bool
deriving DecidableEq, Repr

namespace EventBus

/-- The `listeners : Map<EventType, Set<WrappedHandler>>` field.  Buckets are
insertion-ordered lists, as JavaScript `Set` iteration is. -/
abbrev State := List (EventType × List WrappedHandler)

/-- `this.listeners.get(event)`. -/
def bucket (st : State) (ev : EventType) : Option (List WrappedHandler) :=
  alistLookup st ev

/-- `this.listeners.set(event, s)`. -/
def setBucket (st : State) (ev : EventType) (l : List WrappedHandler) : State :=
  alistInsert st ev l

/-- Shared body of `EventBus.on` and `EventBus.once`: create the bucket when
missing, then `Set.add` the fresh wrapped handler (always a new object, hence
always appended). -/
def add (st : State) (ev : EventType) (wh : WrappedHandler) : State :=
  match bucket st ev with
  | none => setBucket st ev [wh]
  | some l => setBucket st ev (l ++ [wh])

/-- `EventBus.on` (renamed: `on` is reserved notation in Lean): subscribe a
plain handler. -/
def onEvent (st : State) (ev : EventType) (id : Nat) : State :=
  add st ev ⟨id, false⟩

/-- `EventBus.once`: subscribe a handler wrapped with `once: true`. -/
def once (st : State) (ev : EventType) (id : Nat) : State :=
  add st ev ⟨id, true⟩

/-- The `for (const wrappedHandler of handlersArray)` loop of `EventBus.emit`.
`snap` is the snapshot `Array.from(handlers)` taken at emit time, `live` the
live `Set` the loop deletes from, `inv` the ids invoked so far.  A handler id
in `throws` models a handler body that throws: the exception is caught, and —
because the `handlers.delete` sits after the call inside the `try` — the
once-removal is skipped for it. -/
def emitLoop (throws : Nat → Bool) :
    List WrappedHandler → List WrappedHandler → List Nat →
      List WrappedHandler × List Nat
  | [], live, inv => (live, inv)
  | wh :: rest, live, inv =>
    if throws wh.id then
      emitLoop throws rest live (inv ++ [wh.id])
    else if wh.once then
      emitLoop throws rest (live.erase wh) (inv ++ [wh.id])
    else
      emitLoop throws rest live (inv ++ [wh.id])

/-- `EventBus.emit`: returns the new listener map and the list of handler ids
invoked, in invocation order. -/
def emit (st : State) (ev : EventType) (throws : Nat → Bool) : State × List Nat :=
  match bucket st ev with
  | none => (st, [])
  | some handlers =>
    if handlers.isEmpty then (st, [])
    else
      let r := emitLoop throws handlers handlers []
      (setBucket st ev r.1, r.2)

/-- A sequence of `emit` calls on one tag, each with its own set of throwing
handlers; returns the final state and all ids invoked across the sequence. -/
def emitSeq (ev : EventType) : List (Nat → Bool) → State → State × List Nat
  | [], st => (st, [])
  | thr :: rest, st =>
    let r1 := emit st ev thr
    let r2 := emitSeq ev rest r1.1
    (r2.1, r1.2 ++ r2.2)

/-- The handler ids currently registered for a tag. -/
def bucketIds (st : State) (ev : EventType) : List Nat :=
  ((bucket st ev).getD []).map (·.id)

end EventBus

/-! ## Shared repository data model -/

/-- The `FileStatus` string enum of src/models/commit.ts.  Every value is a
nonempty (hence JavaScript-truthy) one-character string. -/
inductive FileStatus where
  | Unmodified
  | Modified
  | Added
  | Deleted
  | Renamed
  | Copied
  | Unmerged
  | Untracked
deriving DecidableEq, Repr

/-- A `StatusFile`: the fields of the working-tree file records that the
embedded cache code reads. -/
structure FileEntry where
  path : String
  indexStatus : FileStatus
  worktreeStatus : FileStatus
deriving DecidableEq, Repr

/-- A branch; only the fields the cache layer reads are modelled. -/
structure Branch where
  name : String
  isCurrent : Bool
deriving DecidableEq, Repr

/-- A remote; only the name is relevant to the cache layer. -/
structure Remote where
  name : String
deriving DecidableEq, Repr

/-- A `GitStatus` snapshot as a plain value (used by `RepositoryManager`,
which stores and returns snapshots without ever mutating their entries). -/
structure GitStatus where
  files : List FileEntry
  staged : List FileEntry
  unstaged : List FileEntry
  untracked : List FileEntry
  conflicted : List FileEntry
deriving DecidableEq, Repr

/-! ## State Cache (`RepositoryManager`, src/core/gitService.ts) -/

/-- The values stored in the `RepositoryManager` cache map. -/
inductive CVal where
  | vStatus (s : GitStatus)
  | vBranch (b : Branch)
  | vBranches (l : List Branch)
  | vRemotes (l : List Remote)
  | vOpaque (n : Nat)
deriving DecidableEq, Repr

/-- `CacheEntry<T>`: value, creation timestamp, time-to-live (milliseconds). -/
structure CacheEntryR where
  value : CVal
  timestamp : Nat
  ttl : Nat
deriving DecidableEq, Repr

/-- `RepositoryState` of gitService.ts. -/
structure RepoState where
  path : String
  name : String
  currentBranch : Option Branch
  status : Option GitStatus
  remotes : List Remote
  isDirty : Bool
  isRebasing : Bool
  isMerging : Bool
  lastUpdated : Nat
deriving DecidableEq, Repr

/-- The observable state of a `RepositoryManager`: the TTL cache map, the
repository state, whether an event bus has been attached, and the pending
debounce timers (key, absolute fire deadline). -/
structure RepositoryManager where
  cache : List (String × CacheEntryR) := []
  repositoryState : Option RepoState := none
  hasEventBus : Bool := true
  refreshTimers : List (String × Nat) := []
deriving DecidableEq, Repr

namespace RepositoryManager

/-- `DEFAULT_TTL = 60000`. -/
def DEFAULT_TTL : Nat := 60000

/-- The `ttl || this.DEFAULT_TTL` expression of `setCache`: an omitted ttl and
a ttl of `0` (both falsy in JavaScript) fall back to the default. -/
def jsTtl : Option Nat → Nat
  | some t => if t = 0 then DEFAULT_TTL else t
  | none => DEFAULT_TTL

/-- The `if (this.eventBus) this.eventBus.emit(ev, …)` pattern: the emitted
tag, when a bus is attached. -/
def emitIfBus (rm : RepositoryManager) (ev : EventType) : List EventType :=
  if rm.hasEventBus then [ev] else []

/-- `RepositoryManager.setCache`. -/
def setCache (rm : RepositoryManager) (k : String) (v : CVal) (ttl : Option Nat)
    (now : Nat) : RepositoryManager :=
  { rm with cache := alistInsert rm.cache k ⟨v, now, jsTtl ttl⟩ }

/-- `RepositoryManager.getFromCache`: `none` on a miss; an entry older than its
ttl is deleted and treated as a miss. -/
def getFromCache (rm : RepositoryManager) (k : String) (now : Nat) :
    Option CVal × RepositoryManager :=
  match alistLookup rm.cache k with
  | none => (none, rm)
  | some e =>
    if now - e.timestamp > e.ttl then
      (none, { rm with cache := alistErase rm.cache k })
    else
      (some e.value, rm)

/-- `RepositoryManager.invalidateCache` with a string key. -/
def invalidateCacheKey (rm : RepositoryManager) (k : String) :
    RepositoryManager × List EventType :=
  ({ rm with cache := alistErase rm.cache k }, emitIfBus rm .DiffChanged)

/-- `RepositoryManager.invalidateCache` with a `RegExp`, modelled by the
predicate the pattern decides: every matching key is deleted. -/
def invalidateCachePat (rm : RepositoryManager) (pat : String → Bool) :
    RepositoryManager × List EventType :=
  ({ rm with cache := rm.cache.filter (fun p => ! pat p.1) }, emitIfBus rm .DiffChanged)

/-- `RepositoryManager.clearCache`. -/
def clearCache (rm : RepositoryManager) : RepositoryManager :=
  { rm with cache := [] }

/-- `RepositoryManager.refreshStatus`.  `g` is the combined outcome of the two
backend calls (`getWorkingTreeStatus`, `getCurrentBranch`); `none` models
either of them rejecting, in which case the `catch` block only logs.  The
`RepositoryChanged` payload (`getActiveRepository()`) is not modelled. -/
def refreshStatus (rm : RepositoryManager) (g : Option (GitStatus × Branch))
    (now : Nat) : RepositoryManager × List EventType :=
  match rm.repositoryState with
  | none => (rm, [])
  | some rs =>
    match g with
    | none => (rm, [])
    | some (st, cb) =>
      let rs1 : RepoState :=
        { rs with
          status := some st
          currentBranch := some cb
          isDirty := decide (0 < st.files.length)
          lastUpdated := now }
      let rm1 := { rm with repositoryState := some rs1 }
      let rm2 := setCache rm1 "status" (.vStatus st) none now
      let rm3 := setCache rm2 "currentBranch" (.vBranch cb) none now
      (rm3, emitIfBus rm3 .RepositoryChanged)

/-- `RepositoryManager.refreshBranches`.  `g` is the outcome of
`Promise.all([getLocalBranches(), getRemoteBranches()])`. -/
def refreshBranches (rm : RepositoryManager) (g : Option (List Branch × List Branch))
    (now : Nat) : RepositoryManager × List EventType :=
  match rm.repositoryState with
  | none => (rm, [])
  | some rs =>
    match g with
    | none => (rm, [])
    | some (locals, remotes) =>
      let rm1 := setCache rm "localBranches" (.vBranches locals) none now
      let rm2 := setCache rm1 "remoteBranches" (.vBranches remotes) none now
      if rs.currentBranch = none ∧ 0 < locals.length then
        match locals.find? (·.isCurrent) with
        | some cur =>
          ({ rm2 with repositoryState := some { rs with currentBranch := some cur } }, [])
        | none => (rm2, [])
      else (rm2, [])

/-- `RepositoryManager.refreshRemotes`. -/
def refreshRemotes (rm : RepositoryManager) (g : Option (List Remote))
    (now : Nat) : RepositoryManager × List EventType :=
  match rm.repositoryState with
  | none => (rm, [])
  | some rs =>
    match g with
    | none => (rm, [])
    | some rems =>
      let rm1 := { rm with repositoryState := some { rs with remotes := rems } }
      (setCache rm1 "remotes" (.vRemotes rems) none now, [])

/-- `RepositoryManager.refreshCache`.  With a key: the key's entry is deleted
up front, then the matching domain refresher runs.  Without a key: the whole
cache is cleared, then all three refreshers run; they are issued concurrently
in the source (`Promise.all`), but each synchronous segment touches disjoint
cache keys and each refresher swallows its own backend failure, so sequential
composition in program order represents every interleaving of the segments for
the cache and event observations stated below.  The trailing `DiffChanged`
emission models the "cache invalidated" event; the outer `catch` is
unreachable because the refreshers never throw. -/
def refreshCache (rm : RepositoryManager) (key : Option String)
    (gS : Option (GitStatus × Branch)) (gB : Option (List Branch × List Branch))
    (gR : Option (List Remote)) (now : Nat) : RepositoryManager × List EventType :=
  match key with
  | some k =>
    let rm1 := { rm with cache := alistErase rm.cache k }
    let r :=
      if k = "status" then refreshStatus rm1 gS now
      else if k = "branches" then refreshBranches rm1 gB now
      else if k = "remotes" then refreshRemotes rm1 gR now
      else (rm1, [])
    (r.1, r.2 ++ emitIfBus r.1 .DiffChanged)
  | none =>
    let rm1 := { rm with cache := [] }
    let r1 := refreshStatus rm1 gS now
    let r2 := refreshBranches r1.1 gB now
    let r3 := refreshRemotes r2.1 gR now
    (r3.1, r1.2 ++ r2.2 ++ r3.2 ++ emitIfBus r3.1 .DiffChanged)

/-- Node's `path.basename` on forward-slash paths, composed with the
`|| repositoryPath` fallback of `setActiveRepository`. -/
def basename (p : String) : String :=
  match ((p.splitOn "/").filter (fun s => decide (¬ s = ""))).getLast? with
  | some b => b
  | none => p

/-- `RepositoryManager.setActiveRepository`.  `ok` is the outcome of
`gitService.setRepositoryPath` (false models its rejection, which the method
rethrows, returning `none` here before any state change). -/
def setActiveRepository (rm : RepositoryManager) (ok : Bool) (p : String)
    (now : Nat) : Option (RepositoryManager × List EventType) :=
  if ok then
    let rs : RepoState :=
      { path := p, name := basename p, currentBranch := none, status := none,
        remotes := [], isDirty := false, isRebasing := false, isMerging := false,
        lastUpdated := now }
    some ({ rm with repositoryState := some rs, cache := [] },
      emitIfBus rm .RepositoryDetected)
  else none

/-- `RepositoryManager.scheduleRefresh`: clear any pending timer for the key
and arm a new one with deadline `now + delay`. -/
def scheduleRefresh (rm : RepositoryManager) (k : String) (now delay : Nat) :
    RepositoryManager :=
  { rm with refreshTimers := alistInsert rm.refreshTimers k (now + delay) }

/-- `RepositoryManager.cancelRefresh`. -/
def cancelRefresh (rm : RepositoryManager) (k : String) : RepositoryManager :=
  match alistLookup rm.refreshTimers k with
  | some _ => { rm with refreshTimers := alistErase rm.refreshTimers k }
  | none => rm

/-- The cache keys a keyed `refreshCache` may write (beyond deleting its own
key): the keys of the matching domain refresher. -/
def domainKeys (k : String) : List String :=
  if k = "status" then ["status", "currentBranch"]
  else if k = "branches" then ["localBranches", "remoteBranches"]
  else if k = "remotes" then ["remotes"]
  else []

end RepositoryManager

/-! ## Optimistic View Cache (`ChangesProvider`) -/

/-- The object store for `FileEntry` objects: a reference is an index into the
store, allocation appends, in-place mutation is `List.set`.  This makes the
sharing of entry objects between an old snapshot and a patched one explicit. -/
abbrev Heap := List FileEntry

/-- Dereference a `FileEntry` reference (total, with a dummy default; all
states arising from the code only hold in-bounds references). -/
def readE (h : Heap) (r : Nat) : FileEntry :=
  h.getD r ⟨"", .Unmodified, .Unmodified⟩

/-- A `GitStatus` snapshot as the provider's cache holds it: arrays of
references into the store.  The partition arrays produced by
`getWorkingTreeStatus` are `filter`s of `files` and therefore share its entry
objects. -/
structure GitStatusH where
  files : List Nat
  staged : List Nat
  unstaged : List Nat
  untracked : List Nat
  conflicted : List Nat
deriving DecidableEq, Repr

/-- The paths of the entries referenced by `rs`. -/
def pathsOf (h : Heap) (rs : List Nat) : List String :=
  rs.map (fun r => (readE h r).path)

namespace ChangesProvider

/-- The observable state of a `ChangesProvider`: the object store, the fields
`statusCache`, `statusCacheExpiry`, `statusInFlight` and `refreshTimer`, plus
two instrumentation counters — `nextPid` numbers the promises created by
`getStatus` and `fetchCount` counts the backend `getWorkingTreeStatus` calls
it has started. -/
structure State where
  heap : Heap := []
  statusCache : Option GitStatusH := none
  statusCacheExpiry : Nat := 0
  statusInFlight : Option Nat := none
  refreshTimer : Option Nat := none
  nextPid : Nat := 0
  fetchCount : Nat := 0
deriving DecidableEq, Repr

/-- `STATUS_CACHE_TTL_MS = 500`. -/
def STATUS_CACHE_TTL_MS : Nat := 500

/-- `REFRESH_DEBOUNCE_MS = 150`. -/
def REFRESH_DEBOUNCE_MS : Nat := 150

/-- `ChangesProvider.setStatusCache`. -/
def setStatusCache (st : State) (sc : GitStatusH) (now : Nat) : State :=
  { st with statusCache := some sc, statusCacheExpiry := now + STATUS_CACHE_TTL_MS }

/-- `ChangesProvider.updateStatusCacheAfterStage`.  The source takes a shallow
copy of the snapshot (`{ ...this.statusCache }`), reassigns its `unstaged` /
`untracked` arrays to filtered copies, then mutates the matching entry of the
shared `files` array in place (`file.indexStatus = Modified`;
`file.worktreeStatus = file.worktreeStatus || Modified` keeps the existing
value, every `FileStatus` string being truthy) and, when the path is not yet
staged, appends a clone `{ ...file }` of the mutated entry to a copied
`staged` array. -/
def updateStatusCacheAfterStage (st : State) (p : String) (now : Nat) : State :=
  match st.statusCache with
  | none => st
  | some sc =>
    let unstaged1 := sc.unstaged.filter (fun r => decide (¬ (readE st.heap r).path = p))
    let untracked1 := sc.untracked.filter (fun r => decide (¬ (readE st.heap r).path = p))
    match sc.files.find? (fun r => decide ((readE st.heap r).path = p)) with
    | none =>
      setStatusCache st { sc with unstaged := unstaged1, untracked := untracked1 } now
    | some r0 =>
      let f1 : FileEntry := { readE st.heap r0 with indexStatus := .Modified }
      let heap1 := st.heap.set r0 f1
      if (sc.staged.find? (fun r => decide ((readE heap1 r).path = p))).isSome then
        setStatusCache { st with heap := heap1 }
          { sc with unstaged := unstaged1, untracked := untracked1 } now
      else
        setStatusCache { st with heap := heap1 ++ [f1] }
          { sc with
            unstaged := unstaged1
            untracked := untracked1
            staged := sc.staged ++ [heap1.length] } now

/-- `ChangesProvider.updateStatusCacheAfterUnstage`: symmetric to the stage
patch — filter `staged`, mutate the matching `files` entry in place
(`indexStatus = Unmodified`), append a clone to `unstaged` when absent. -/
def updateStatusCacheAfterUnstage (st : State) (p : String) (now : Nat) : State :=
  match st.statusCache with
  | none => st
  | some sc =>
    let staged1 := sc.staged.filter (fun r => decide (¬ (readE st.heap r).path = p))
    match sc.files.find? (fun r => decide ((readE st.heap r).path = p)) with
    | none =>
      setStatusCache st { sc with staged := staged1 } now
    | some r0 =>
      let f1 : FileEntry := { readE st.heap r0 with indexStatus := .Unmodified }
      let heap1 := st.heap.set r0 f1
      if (sc.unstaged.find? (fun r => decide ((readE heap1 r).path = p))).isSome then
        setStatusCache { st with heap := heap1 } { sc with staged := staged1 } now
      else
        setStatusCache { st with heap := heap1 ++ [f1] }
          { sc with staged := staged1, unstaged := sc.unstaged ++ [heap1.length] } now

/-- `ChangesProvider.invalidateStatusCache`. -/
def invalidateStatusCache (st : State) : State :=
  { st with statusCache := none, statusCacheExpiry := 0, statusInFlight := none }

/-- `ChangesProvider.scheduleRefresh`: arm the debounce timer only when none
is pending (`if (this.refreshTimer) return;`) — a pending timer is kept, not
reset. -/
def scheduleRefresh (st : State) (now : Nat) : State :=
  match st.refreshTimer with
  | some _ => st
  | none => { st with refreshTimer := some (now + REFRESH_DEBOUNCE_MS) }

/-- The debounce timer firing: `refreshTimer = null`, then `refresh()` (which
invalidates the status cache and fires the tree-data event).  Returns the
number of `refresh()` invocations performed (0 or 1). -/
def fireTimer (st : State) : State × Nat :=
  match st.refreshTimer with
  | none => (st, 0)
  | some _ => (invalidateStatusCache { st with refreshTimer := none }, 1)

/-- A burst of `scheduleRefresh` calls at the given times. -/
def scheduleBurst (st : State) (ts : List Nat) : State :=
  ts.foldl (fun s t => scheduleRefresh s t) st

/-- What a `getStatus()` call hands its caller. -/
inductive GetStatusRes where
  | cached (sc : GitStatusH)
  | pending (pid : Nat)
deriving DecidableEq, Repr

/-- The `statusInFlight` check of `getStatus`: join the pending promise if one
exists, otherwise start a new fetch (recording the started backend call in
`fetchCount`). -/
def startOrJoin (st : State) : State × GetStatusRes × Bool :=
  match st.statusInFlight with
  | some q => (st, .pending q, false)
  | none =>
    ({ st with
       statusInFlight := some st.nextPid
       nextPid := st.nextPid + 1
       fetchCount := st.fetchCount + 1 },
     .pending st.nextPid, true)

/-- The synchronous prefix of `ChangesProvider.getStatus` at time `now`: serve
the cache when present and unexpired (`now < statusCacheExpiry`), else join or
start the in-flight fetch.  The `Bool` reports whether a backend call was
started by this call. -/
def getStatus (st : State) (now : Nat) : State × GetStatusRes × Bool :=
  match st.statusCache with
  | some sc =>
    if now < st.statusCacheExpiry then (st, .cached sc, false)
    else startOrJoin st
  | none => startOrJoin st

/-- Completion of the in-flight fetch.  On success the fetched snapshot is
installed (`setStatusCache`) after its parsed entries are allocated in the
store; in both cases the `finally` clears `statusInFlight`. -/
def fetchComplete (st : State) (ok : Bool) (newEntries : List FileEntry)
    (sc : GitStatusH) (now : Nat) : State :=
  if ok then
    { setStatusCache { st with heap := st.heap ++ newEntries } sc now with
      statusInFlight := none }
  else { st with statusInFlight := none }

/-- N interleaved `getStatus` calls, at the given times, none of which is
separated by a completion of the in-flight fetch: the event-loop runs each
synchronous prefix atomically.  Returns the final state, the per-call results,
and the number of backend calls started. -/
def getStatusBurst (st : State) : List Nat → State × List GetStatusRes × Nat
  | [] => (st, [], 0)
  | t :: rest =>
    let r1 := getStatus st t
    let r2 := getStatusBurst r1.1 rest
    (r2.1, r1.2.1 :: r2.2.1, (if r1.2.2 then 1 else 0) + r2.2.2)

end ChangesProvider

/-! ## Association-list lemmas -/

theorem alistLookup_erase_self {κ α : Type} [DecidableEq κ] (c : List (κ × α)) (k : κ) :
    alistLookup (alistErase c k) k = none := by
  induction c with
  | nil => rfl
  | cons hd tl ih =>
    by_cases h : hd.1 = k
    · have h2 : alistErase (hd :: tl) k = alistErase tl k := by
        simp [alistErase, List.filter_cons, h]
      rw [h2, ih]
    · have h2 : alistErase (hd :: tl) k = hd :: alistErase tl k := by
        simp [alistErase, List.filter_cons, h]
      unfold alistLookup at ih ⊢
      rw [h2, List.find?_cons_of_neg _ (by simpa using h)]
      exact ih

theorem alistLookup_erase_ne {κ α : Type} [DecidableEq κ] (c : List (κ × α)) (k k' : κ)
    (h : k' ≠ k) : alistLookup (alistErase c k) k' = alistLookup c k' := by
  induction c with
  | nil => rfl
  | cons hd tl ih =>
    by_cases hk : hd.1 = k
    · have h1 : ¬ hd.1 = k' := by rw [hk]; exact fun he => h he.symm
      have h2 : alistErase (hd :: tl) k = alistErase tl k := by
        simp [alistErase, List.filter_cons, hk]
      rw [h2, ih]
      unfold alistLookup
      rw [List.find?_cons_of_neg _ (by simpa using h1)]
    · have h2 : alistErase (hd :: tl) k = hd :: alistErase tl k := by
        simp [alistErase, List.filter_cons, hk]
      by_cases hk' : hd.1 = k'
      · unfold alistLookup
        rw [h2, List.find?_cons_of_pos _ (by simpa using hk'),
          List.find?_cons_of_pos _ (by simpa using hk')]
      · unfold alistLookup at ih ⊢
        rw [h2, List.find?_cons_of_neg _ (by simpa using hk'),
          List.find?_cons_of_neg _ (by simpa using hk')]
        exact ih

theorem alistLookup_append {κ α : Type} [DecidableEq κ] (c d : List (κ × α)) (k : κ) :
    alistLookup (c ++ d) k = (alistLookup c k).or (alistLookup d k) := by
  unfold alistLookup
  rw [List.find?_append]
  cases c.find? (fun p => decide (p.1 = k)) <;> simp

theorem alistLookup_insert_self {κ α : Type} [DecidableEq κ] (c : List (κ × α)) (k : κ)
    (v : α) : alistLookup (alistInsert c k v) k = some v := by
  rw [alistInsert, alistLookup_append, alistLookup_erase_self]
  simp [alistLookup, List.find?]

theorem alistLookup_insert_ne {κ α : Type} [DecidableEq κ] (c : List (κ × α)) (k k' : κ)
    (v : α) (h : k' ≠ k) : alistLookup (alistInsert c k v) k' = alistLookup c k' := by
  rw [alistInsert, alistLookup_append, alistLookup_erase_ne c k k' h]
  have hkk : ¬ k = k' := fun he => h he.symm
  have h1 : alistLookup [(k, v)] k' = none := by simp [alistLookup, List.find?, hkk]
  rw [h1]
  cases alistLookup c k' <;> simp

/-! ## Event Hub lemmas -/

theorem emitLoop_invoked (throws : Nat → Bool) (snap live : List WrappedHandler)
    (inv : List Nat) :
    (EventBus.emitLoop throws snap live inv).2 = inv ++ snap.map (·.id) := by
  induction snap generalizing live inv with
  | nil => simp [EventBus.emitLoop]
  | cons wh rest ih =>
    by_cases ht : throws wh.id
    · simp [EventBus.emitLoop, ht, ih]
    · by_cases ho : wh.once
      · simp [EventBus.emitLoop, ht, ho, ih]
      · simp [EventBus.emitLoop, ht, ho, ih]

theorem emitLoop_live_sublist (throws : Nat → Bool) (snap live : List WrappedHandler)
    (inv : List Nat) :
    (EventBus.emitLoop throws snap live inv).1.Sublist live := by
  induction snap generalizing live inv with
  | nil => simp [EventBus.emitLoop]
  | cons wh rest ih =>
    by_cases ht : throws wh.id
    · simpa [EventBus.emitLoop, ht] using ih live (inv ++ [wh.id])
    · by_cases ho : wh.once
      · have h1 := ih (live.erase wh) (inv ++ [wh.id])
        have h2 : (live.erase wh).Sublist live := live.erase_sublist wh
        simpa [EventBus.emitLoop, ht, ho] using h1.trans h2
      · simpa [EventBus.emitLoop, ht, ho] using ih live (inv ++ [wh.id])

theorem emitLoop_not_mem (throws : Nat → Bool) (snap live : List WrappedHandler)
    (inv : List Nat) (wh : WrappedHandler) (h : wh ∉ live) :
    wh ∉ (EventBus.emitLoop throws snap live inv).1 :=
  fun hm => h ((emitLoop_live_sublist throws snap live inv).subset hm)

theorem emitLoop_removes (throws : Nat → Bool) (snap live : List WrappedHandler)
    (inv : List Nat) (wh : WrappedHandler) (hs : wh ∈ snap) (ho : wh.once = true)
    (ht : throws wh.id = false) (hn : live.Nodup) :
    wh ∉ (EventBus.emitLoop throws snap live inv).1 := by
  induction snap generalizing live inv with
  | nil => simp at hs
  | cons hd rest ih =>
    by_cases he : hd = wh
    · subst he
      rw [EventBus.emitLoop]
      simp [ht, ho]
      exact emitLoop_not_mem throws rest (live.erase hd) (inv ++ [hd.id]) hd
        (hn.not_mem_erase)
    · have hs' : wh ∈ rest := by
        cases hs with
        | head => exact absurd rfl he
        | tail _ h => exact h
      by_cases htd : throws hd.id
      · rw [EventBus.emitLoop]; simp [htd]; exact ih live _ hs' hn
      · by_cases hod : hd.once
        · rw [EventBus.emitLoop]; simp [htd, hod]
          exact ih (live.erase hd) _ hs' (hn.erase hd)
        · rw [EventBus.emitLoop]; simp [htd, hod]; exact ih live _ hs' hn

theorem emit_invoked_mem (st : EventBus.State) (ev : EventType) (throws : Nat → Bool)
    (i : Nat) (h : i ∈ (EventBus.emit st ev throws).2) :
    i ∈ EventBus.bucketIds st ev := by
  unfold EventBus.emit at h
  cases hb : EventBus.bucket st ev with
  | none => rw [hb] at h; simp at h
  | some handlers =>
    rw [hb] at h
    by_cases he : handlers.isEmpty
    · simp [he] at h
    · simp only [he, if_false, Bool.false_eq_true] at h
      rw [emitLoop_invoked] at h
      simp only [List.nil_append] at h
      unfold EventBus.bucketIds
      rw [hb]
      simpa using h

theorem emit_bucket_ids_subset (st : EventBus.State) (ev : EventType)
    (throws : Nat → Bool) (i : Nat)
    (h : i ∈ EventBus.bucketIds (EventBus.emit st ev throws).1 ev) :
    i ∈ EventBus.bucketIds st ev := by
  unfold EventBus.emit at h
  cases hb : EventBus.bucket st ev with
  | none => rw [hb] at h; exact h
  | some handlers =>
    rw [hb] at h
    by_cases he : handlers.isEmpty
    · simp only [he, if_true] at h; exact h
    · simp only [he, if_false, Bool.false_eq_true] at h
      unfold EventBus.bucketIds EventBus.setBucket at h
      rw [show EventBus.bucket (alistInsert st ev
            (EventBus.emitLoop throws handlers handlers []).1) ev
          = some (EventBus.emitLoop throws handlers handlers []).1 from
          alistLookup_insert_self st ev _] at h
      simp only [Option.getD_some, List.mem_map] at h
      rcases h with ⟨wh, hw, hwid⟩
      have hmem : wh ∈ handlers :=
        (emitLoop_live_sublist throws handlers handlers []).subset hw
      unfold EventBus.bucketIds
      rw [hb]
      simp only [Option.getD_some, List.mem_map]
      exact ⟨wh, hmem, hwid⟩

theorem emitSeq_not_invoked (ev : EventType) (thrs : List (Nat → Bool))
    (st : EventBus.State) (i : Nat) (h : i ∉ EventBus.bucketIds st ev) :
    i ∉ (EventBus.emitSeq ev thrs st).2 := by
  induction thrs generalizing st with
  | nil => simp [EventBus.emitSeq]
  | cons thr rest ih =>
    intro hm
    simp only [EventBus.emitSeq] at hm
    rcases List.mem_append.mp hm with h1 | h2
    · exact h (emit_invoked_mem st ev thr i h1)
    · have hb : i ∉ EventBus.bucketIds (EventBus.emit st ev thr).1 ev :=
        fun hx => h (emit_bucket_ids_subset st ev thr i hx)
      exact ih _ hb h2

/-- C7 (amended): a `subscribeOnce` handler whose invocation returns normally
is invoked exactly once by that emit and is removed at once, so it is never
invoked again by any number of subsequent emits of the same tag.  (The
unamended claim — removal even when the handler throws — is refuted by
`once_throwing_handler_refires_cex`: the `handlers.delete` sits after the
handler call inside the `try`, so a thrown exception skips it.) -/
theorem once_handler_fires_once_when_not_throwing
    (st : EventBus.State) (ev : EventType) (wh : WrappedHandler)
    (l : List WrappedHandler) (throws : Nat → Bool)
    (hb : EventBus.bucket st ev = some l) (hm : wh ∈ l) (ho : wh.once = true)
    (hn : (l.map (·.id)).Nodup) (ht : throws wh.id = false) :
    (EventBus.emit st ev throws).2.count wh.id = 1 ∧
    ∀ thrs : List (Nat → Bool),
      wh.id ∉ (EventBus.emitSeq ev thrs (EventBus.emit st ev throws).1).2 := by
  have hnl : l.Nodup := hn.of_map _
  have hemp : l.isEmpty = false := by
    cases l with
    | nil => simp at hm
    | cons a t => rfl
  have hre : EventBus.emit st ev throws =
      (EventBus.setBucket st ev (EventBus.emitLoop throws l l []).1,
       (EventBus.emitLoop throws l l []).2) := by
    unfold EventBus.emit
    rw [hb]
    simp [hemp]
  constructor
  · rw [hre]
    show (EventBus.emitLoop throws l l []).2.count wh.id = 1
    rw [emitLoop_invoked]
    simp only [List.nil_append]
    exact List.count_eq_one_of_mem hn (List.mem_map_of_mem _ hm)
  · have hrm : wh ∉ (EventBus.emitLoop throws l l []).1 :=
      emitLoop_removes throws l l [] wh hm ho ht hnl
    have hsub := emitLoop_live_sublist throws l l []
    have hid : wh.id ∉ EventBus.bucketIds (EventBus.emit st ev throws).1 ev := by
      rw [hre]
      show wh.id ∉ EventBus.bucketIds (EventBus.setBucket st ev _) ev
      unfold EventBus.bucketIds EventBus.setBucket EventBus.bucket
      rw [alistLookup_insert_self]
      intro hx
      simp only [Option.getD_some, List.mem_map] at hx
      rcases hx with ⟨wh', hw', hwid⟩
      have hmem : wh' ∈ l := hsub.subset hw'
      have heq : wh' = wh := List.inj_on_of_nodup_map hn hmem hm hwid
      exact hrm (heq ▸ hw')
    intro thrs
    exact emitSeq_not_invoked ev thrs _ wh.id hid

/-- C7 witness: a concrete once-subscription that does not throw fires exactly
once and never again. -/
theorem once_handler_fires_once_witness :
    (EventBus.emit (EventBus.once [] .RepositoryChanged 5) .RepositoryChanged
      (fun _ => false)).2.count 5 = 1 ∧
    5 ∉ (EventBus.emitSeq .RepositoryChanged [fun _ => false]
      (EventBus.emit (EventBus.once [] .RepositoryChanged 5) .RepositoryChanged
        (fun _ => false)).1).2 := by
  have h := once_handler_fires_once_when_not_throwing
    (EventBus.once [] .RepositoryChanged 5) .RepositoryChanged ⟨5, true⟩ [⟨5, true⟩]
    (fun _ => false) (by decide) (by simp) rfl (by decide) rfl
  exact ⟨h.1, h.2 [fun _ => false]⟩

/-- C7 counterexample: a `subscribeOnce` handler whose invocation throws is
not removed (the thrown exception skips the `handlers.delete`), so across two
subsequent emits of the tag it is invoked twice and is still registered after
the first emit — refuting both the at-most-once and the removed-even-on-throw
parts of the claim. -/
theorem once_throwing_handler_refires_cex :
    (EventBus.emitSeq .RepositoryChanged [fun _ => true, fun _ => true]
      (EventBus.once [] .RepositoryChanged 0)).2.count 0 = 2 ∧
    EventBus.bucket (EventBus.emit (EventBus.once [] .RepositoryChanged 0)
      .RepositoryChanged (fun _ => true)).1 .RepositoryChanged
      = some [⟨0, true⟩] := by
  exact ⟨by decide, by decide⟩

/-! ## State Cache lemmas -/

theorem refreshStatus_events (rm : RepositoryManager) (g : Option (GitStatus × Branch))
    (now : Nat) (hrs : rm.repositoryState.isSome) (hbus : rm.hasEventBus = true) :
    (RepositoryManager.refreshStatus rm g now).2 =
      (if g.isSome then [EventType.RepositoryChanged] else []) := by
  rcases Option.isSome_iff_exists.mp hrs with ⟨rs, hr⟩
  unfold RepositoryManager.refreshStatus
  rw [hr]
  cases g with
  | none => rfl
  | some p =>
    cases p with
    | mk st cb => simp [RepositoryManager.emitIfBus, RepositoryManager.setCache, hbus]

theorem refreshBranches_no_events (rm : RepositoryManager)
    (g : Option (List Branch × List Branch)) (now : Nat) :
    (RepositoryManager.refreshBranches rm g now).2 = [] := by
  unfold RepositoryManager.refreshBranches
  cases rm.repositoryState with
  | none => rfl
  | some rs =>
    cases g with
    | none => rfl
    | some p =>
      cases p with
      | mk locals remotes =>
        dsimp only
        split
        · split <;> rfl
        · rfl

theorem refreshRemotes_no_events (rm : RepositoryManager) (g : Option (List Remote))
    (now : Nat) : (RepositoryManager.refreshRemotes rm g now).2 = [] := by
  unfold RepositoryManager.refreshRemotes
  cases rm.repositoryState with
  | none => rfl
  | some rs => cases g <;> rfl

theorem count_emitIfBus_ne (rm : RepositoryManager) (ev ev' : EventType)
    (h : ev' ≠ ev) : (RepositoryManager.emitIfBus rm ev).count ev' = 0 := by
  unfold RepositoryManager.emitIfBus
  split
  · simp [List.count_cons, h]
  · rfl

/-- C1 (amended): through `refreshCache("status")` — and through
`refreshCache()` with no key — a `RepositoryChanged` event is emitted exactly
when the backend status fetch succeeds (with an active repository and an
attached bus); a failed status refresh emits no `RepositoryChanged` event at
all, because the emission sits inside the `try` block of `refreshStatus` and
its `catch` only logs. -/
theorem repository_changed_event_iff_status_success
    (rm : RepositoryManager) (gS : Option (GitStatus × Branch))
    (gB : Option (List Branch × List Branch)) (gR : Option (List Remote)) (now : Nat)
    (hrs : rm.repositoryState.isSome) (hbus : rm.hasEventBus = true) :
    (RepositoryManager.refreshCache rm (some "status") gS gB gR now).2.count
        .RepositoryChanged = (if gS.isSome then 1 else 0) ∧
    (RepositoryManager.refreshCache rm none gS gB gR now).2.count
        .RepositoryChanged = (if gS.isSome then 1 else 0) := by
  constructor
  · show ((RepositoryManager.refreshStatus
        { rm with cache := alistErase rm.cache "status" } gS now).2 ++
        RepositoryManager.emitIfBus _ .DiffChanged).count .RepositoryChanged = _
    rw [List.count_append,
      refreshStatus_events { rm with cache := alistErase rm.cache "status" } gS now hrs hbus,
      count_emitIfBus_ne _ _ _ (by intro h; exact EventType.noConfusion h)]
    cases gS <;> simp
  · show ((RepositoryManager.refreshStatus { rm with cache := [] } gS now).2 ++
        (RepositoryManager.refreshBranches _ gB now).2 ++
        (RepositoryManager.refreshRemotes _ gR now).2 ++
        RepositoryManager.emitIfBus _ .DiffChanged).count .RepositoryChanged = _
    rw [refreshBranches_no_events, refreshRemotes_no_events]
    rw [List.count_append, List.count_append, List.count_append,
      refreshStatus_events { rm with cache := [] } gS now hrs hbus,
      count_emitIfBus_ne _ _ _ (by intro h; exact EventType.noConfusion h)]
    cases gS <;> simp

/-- C1 witness: with an active repository and a bus attached, a successful
status refresh emits exactly one `RepositoryChanged` event. -/
theorem repository_changed_event_iff_status_success_witness :
    (RepositoryManager.refreshCache
      { repositoryState := some ⟨"/r", "r", none, none, [], false, false, false, 0⟩ }
      (some "status") (some (⟨[], [], [], [], []⟩, ⟨"main", true⟩)) none none 5).2.count
        .RepositoryChanged = 1 := by
  have h := (repository_changed_event_iff_status_success
    { repositoryState := some ⟨"/r", "r", none, none, [], false, false, false, 0⟩ }
    (some (⟨[], [], [], [], []⟩, ⟨"main", true⟩)) none none 5 (by decide) rfl).1
  simpa using h

/-- C1 counterexample: when the backend status fetch fails, the completed
refresh emits zero `RepositoryChanged` events, not exactly one as claimed. -/
theorem repository_changed_event_on_failure_cex :
    (RepositoryManager.refreshCache
      { repositoryState := some ⟨"/r", "r", none, none, [], false, false, false, 0⟩ }
      (some "status") none none none 5).2.count .RepositoryChanged = 0 := by
  decide

/-- C5 (amended): for every key written by `setCache` with a nonzero TTL `t`
at time `t0`, a read at age `now - t0 ≤ t` returns the written value (leaving
the cache untouched) and a read at age `> t` returns `none`.  For `t = 0` the
source's `ttl || DEFAULT_TTL` silently substitutes the one-minute default (see
`cache_zero_ttl_cex`). -/
theorem cache_ttl_semantics (rm : RepositoryManager) (k : String) (v : CVal)
    (t t0 now : Nat) (ht : t ≠ 0) :
    (now - t0 ≤ t →
      RepositoryManager.getFromCache (RepositoryManager.setCache rm k v (some t) t0) k now
        = (some v, RepositoryManager.setCache rm k v (some t) t0)) ∧
    (now - t0 > t →
      (RepositoryManager.getFromCache (RepositoryManager.setCache rm k v (some t) t0)
        k now).1 = none) := by
  have hl : alistLookup (RepositoryManager.setCache rm k v (some t) t0).cache k
      = some ⟨v, t0, t⟩ := by
    show alistLookup (alistInsert rm.cache k ⟨v, t0, RepositoryManager.jsTtl (some t)⟩) k = _
    rw [alistLookup_insert_self]
    simp [RepositoryManager.jsTtl, ht]
  constructor
  · intro hle
    have hno : ¬ (now - t0 > t) := by omega
    unfold RepositoryManager.getFromCache
    rw [hl]
    simp [hno]
  · intro hgt
    unfold RepositoryManager.getFromCache
    rw [hl]
    simp [hgt]

/-- C5 witness: a write with TTL 5 at time 0 is served at time 3 and absent at
time 7. -/
theorem cache_ttl_semantics_witness :
    RepositoryManager.getFromCache
      (RepositoryManager.setCache {} "k" (.vOpaque 1) (some 5) 0) "k" 3
      = (some (.vOpaque 1), RepositoryManager.setCache {} "k" (.vOpaque 1) (some 5) 0) ∧
    (RepositoryManager.getFromCache
      (RepositoryManager.setCache {} "k" (.vOpaque 1) (some 5) 0) "k" 7).1 = none := by
  exact ⟨(cache_ttl_semantics {} "k" (.vOpaque 1) 5 0 3 (by decide)).1 (by decide),
    (cache_ttl_semantics {} "k" (.vOpaque 1) 5 0 7 (by decide)).2 (by decide)⟩

/-- C5 counterexample: a write with TTL 0 is still served at age 1 > 0,
because `ttl || this.DEFAULT_TTL` treats the falsy 0 as "use the default". -/
theorem cache_zero_ttl_cex :
    (RepositoryManager.getFromCache
      (RepositoryManager.setCache {} "k" (.vOpaque 7) (some 0) 0) "k" 1).1
      = some (.vOpaque 7) ∧ (1 : Nat) - 0 > 0 := by
  exact ⟨by decide, by decide⟩

theorem refreshStatus_failure_id (rm : RepositoryManager) (now : Nat) :
    RepositoryManager.refreshStatus rm none now = (rm, []) := by
  unfold RepositoryManager.refreshStatus
  cases rm.repositoryState <;> rfl

theorem refreshBranches_failure_id (rm : RepositoryManager) (now : Nat) :
    RepositoryManager.refreshBranches rm none now = (rm, []) := by
  unfold RepositoryManager.refreshBranches
  cases rm.repositoryState <;> rfl

theorem refreshRemotes_failure_id (rm : RepositoryManager) (now : Nat) :
    RepositoryManager.refreshRemotes rm none now = (rm, []) := by
  unfold RepositoryManager.refreshRemotes
  cases rm.repositoryState <;> rfl

theorem refreshStatus_cache_other (rm : RepositoryManager)
    (g : Option (GitStatus × Branch)) (now : Nat) (k' : String)
    (h1 : k' ≠ "status") (h2 : k' ≠ "currentBranch") :
    alistLookup (RepositoryManager.refreshStatus rm g now).1.cache k'
      = alistLookup rm.cache k' := by
  unfold RepositoryManager.refreshStatus
  cases rm.repositoryState with
  | none => rfl
  | some rs =>
    cases g with
    | none => rfl
    | some p =>
      cases p with
      | mk st cb =>
        dsimp only [RepositoryManager.setCache]
        rw [alistLookup_insert_ne _ _ _ _ h2, alistLookup_insert_ne _ _ _ _ h1]

theorem refreshBranches_cache_other (rm : RepositoryManager)
    (g : Option (List Branch × List Branch)) (now : Nat) (k' : String)
    (h1 : k' ≠ "localBranches") (h2 : k' ≠ "remoteBranches") :
    alistLookup (RepositoryManager.refreshBranches rm g now).1.cache k'
      = alistLookup rm.cache k' := by
  unfold RepositoryManager.refreshBranches
  cases rm.repositoryState with
  | none => rfl
  | some rs =>
    cases g with
    | none => rfl
    | some p =>
      cases p with
      | mk locals remotes =>
        dsimp only [RepositoryManager.setCache]
        split
        · split
          · dsimp only
            rw [alistLookup_insert_ne _ _ _ _ h2, alistLookup_insert_ne _ _ _ _ h1]
          · dsimp only
            rw [alistLookup_insert_ne _ _ _ _ h2, alistLookup_insert_ne _ _ _ _ h1]
        · dsimp only
          rw [alistLookup_insert_ne _ _ _ _ h2, alistLookup_insert_ne _ _ _ _ h1]

theorem refreshRemotes_cache_other (rm : RepositoryManager) (g : Option (List Remote))
    (now : Nat) (k' : String) (h1 : k' ≠ "remotes") :
    alistLookup (RepositoryManager.refreshRemotes rm g now).1.cache k'
      = alistLookup rm.cache k' := by
  unfold RepositoryManager.refreshRemotes
  cases rm.repositoryState with
  | none => rfl
  | some rs =>
    cases g with
    | none => rfl
    | some rems =>
      dsimp only [RepositoryManager.setCache]
      rw [alistLookup_insert_ne _ _ _ _ h1]

theorem refreshBranches_success_cache (rm : RepositoryManager) (rs : RepoState)
    (lb rb : List Branch) (now : Nat) (hr : rm.repositoryState = some rs) :
    (RepositoryManager.refreshBranches rm (some (lb, rb)) now).1.cache =
      alistInsert (alistInsert rm.cache "localBranches"
          ⟨.vBranches lb, now, RepositoryManager.DEFAULT_TTL⟩)
        "remoteBranches" ⟨.vBranches rb, now, RepositoryManager.DEFAULT_TTL⟩ ∧
    (RepositoryManager.refreshBranches rm (some (lb, rb)) now).1.repositoryState.isSome := by
  unfold RepositoryManager.refreshBranches
  rw [hr]
  dsimp only [RepositoryManager.setCache, RepositoryManager.jsTtl]
  split
  · split <;> exact ⟨rfl, by simp [hr]⟩
  · exact ⟨rfl, by simp [hr]⟩

theorem refreshRemotes_success_cache (rm : RepositoryManager) (rems : List Remote)
    (now : Nat) (hr : rm.repositoryState.isSome) :
    (RepositoryManager.refreshRemotes rm (some rems) now).1.cache =
      alistInsert rm.cache "remotes" ⟨.vRemotes rems, now, RepositoryManager.DEFAULT_TTL⟩ := by
  rcases Option.isSome_iff_exists.mp hr with ⟨rs, h⟩
  unfold RepositoryManager.refreshRemotes
  rw [h]
  rfl

theorem refreshCache_keyed_other_keys (rm : RepositoryManager) (k k' : String)
    (gS : Option (GitStatus × Branch)) (gB : Option (List Branch × List Branch))
    (gR : Option (List Remote)) (now : Nat)
    (hkk : k' ≠ k) (hdo : ¬ k' ∈ RepositoryManager.domainKeys k) :
    alistLookup (RepositoryManager.refreshCache rm (some k) gS gB gR now).1.cache k'
      = alistLookup rm.cache k' := by
  by_cases hs : k = "status"
  · subst hs
    have hd2 : k' ≠ "currentBranch" := fun he =>
      hdo (by simp [RepositoryManager.domainKeys, he])
    show alistLookup (RepositoryManager.refreshStatus
        { rm with cache := alistErase rm.cache "status" } gS now).1.cache k' = _
    rw [refreshStatus_cache_other _ _ _ _ hkk hd2]
    exact alistLookup_erase_ne _ _ _ hkk
  · by_cases hbr : k = "branches"
    · subst hbr
      have hd1 : k' ≠ "localBranches" := fun he =>
        hdo (by simp [RepositoryManager.domainKeys, he])
      have hd2 : k' ≠ "remoteBranches" := fun he =>
        hdo (by simp [RepositoryManager.domainKeys, he])
      show alistLookup (RepositoryManager.refreshBranches
          { rm with cache := alistErase rm.cache "branches" } gB now).1.cache k' = _
      rw [refreshBranches_cache_other _ _ _ _ hd1 hd2]
      exact alistLookup_erase_ne _ _ _ hkk
    · by_cases hre : k = "remotes"
      · subst hre
        have hd1 : k' ≠ "remotes" := hkk
        show alistLookup (RepositoryManager.refreshRemotes
            { rm with cache := alistErase rm.cache "remotes" } gR now).1.cache k' = _
        rw [refreshRemotes_cache_other _ _ _ _ hd1]
        exact alistLookup_erase_ne _ _ _ hkk
      · unfold RepositoryManager.refreshCache
        dsimp only
        rw [if_neg hs, if_neg hbr, if_neg hre]
        exact alistLookup_erase_ne _ _ _ hkk

/-- C4 (amended): when a keyed domain refresh fails, the refresher itself
writes nothing — but `refreshCache` deletes the key's existing entry BEFORE
invoking the refresher, so the previous entry for that key is gone afterwards
(everything else, including `RepositoryState`, is untouched).  A failure in
one domain still does not prevent the others from running: a keyless refresh
whose status fetch fails still writes the branches and remotes entries. -/
theorem failed_refresh_spares_other_domains
    (rm : RepositoryManager) (rs : RepoState) (gS : Option (GitStatus × Branch))
    (gB : Option (List Branch × List Branch)) (gR : Option (List Remote))
    (lb rb : List Branch) (rems : List Remote) (now : Nat)
    (hrs : rm.repositoryState = some rs) :
    (RepositoryManager.refreshCache rm (some "status") none gB gR now).1
      = { rm with cache := alistErase rm.cache "status" } ∧
    (RepositoryManager.refreshCache rm (some "branches") gS none gR now).1
      = { rm with cache := alistErase rm.cache "branches" } ∧
    (RepositoryManager.refreshCache rm (some "remotes") gS gB none now).1
      = { rm with cache := alistErase rm.cache "remotes" } ∧
    alistLookup (RepositoryManager.refreshCache rm none none (some (lb, rb))
        (some rems) now).1.cache "localBranches"
      = some ⟨.vBranches lb, now, RepositoryManager.DEFAULT_TTL⟩ ∧
    alistLookup (RepositoryManager.refreshCache rm none none (some (lb, rb))
        (some rems) now).1.cache "remoteBranches"
      = some ⟨.vBranches rb, now, RepositoryManager.DEFAULT_TTL⟩ ∧
    alistLookup (RepositoryManager.refreshCache rm none none (some (lb, rb))
        (some rems) now).1.cache "remotes"
      = some ⟨.vRemotes rems, now, RepositoryManager.DEFAULT_TTL⟩ ∧
    alistLookup (RepositoryManager.refreshCache rm none none (some (lb, rb))
        (some rems) now).1.cache "status" = none := by
  have hrm1 : ({ rm with cache := ([] : List (String × CacheEntryR)) }
      : RepositoryManager).repositoryState = some rs := hrs
  have hb := refreshBranches_success_cache { rm with cache := [] } rs lb rb now hrm1
  have hcache : (RepositoryManager.refreshCache rm none none (some (lb, rb))
        (some rems) now).1.cache
      = alistInsert (alistInsert (alistInsert [] "localBranches"
            ⟨.vBranches lb, now, RepositoryManager.DEFAULT_TTL⟩)
          "remoteBranches" ⟨.vBranches rb, now, RepositoryManager.DEFAULT_TTL⟩)
          "remotes" ⟨.vRemotes rems, now, RepositoryManager.DEFAULT_TTL⟩ := by
    show (RepositoryManager.refreshRemotes (RepositoryManager.refreshBranches
        (RepositoryManager.refreshStatus { rm with cache := [] } none now).1
        (some (lb, rb)) now).1 (some rems) now).1.cache = _
    have h1 : (RepositoryManager.refreshStatus
        { rm with cache := ([] : List (String × CacheEntryR)) } none now).1
        = { rm with cache := [] } := by rw [refreshStatus_failure_id]
    rw [h1, refreshRemotes_success_cache _ rems now hb.2, hb.1]
  refine ⟨?_, ?_, ?_, ?_, ?_, ?_, ?_⟩
  · show (RepositoryManager.refreshStatus
        { rm with cache := alistErase rm.cache "status" } none now).1 = _
    rw [refreshStatus_failure_id]
  · show (RepositoryManager.refreshBranches
        { rm with cache := alistErase rm.cache "branches" } none now).1 = _
    rw [refreshBranches_failure_id]
  · show (RepositoryManager.refreshRemotes
        { rm with cache := alistErase rm.cache "remotes" } none now).1 = _
    rw [refreshRemotes_failure_id]
  · rw [hcache, alistLookup_insert_ne _ _ _ _ (by decide),
      alistLookup_insert_ne _ _ _ _ (by decide), alistLookup_insert_self]
  · rw [hcache, alistLookup_insert_ne _ _ _ _ (by decide), alistLookup_insert_self]
  · rw [hcache, alistLookup_insert_self]
  · rw [hcache, alistLookup_insert_ne _ _ _ _ (by decide),
      alistLookup_insert_ne _ _ _ _ (by decide), alistLookup_insert_ne _ _ _ _ (by decide)]
    rfl

/-- C4 witness: concrete instance — a failed keyed status refresh only removes
the "status" entry, and a keyless refresh with a failing status fetch still
writes the remotes entry. -/
theorem failed_refresh_spares_other_domains_witness :
    (RepositoryManager.refreshCache
      { cache := [("x", ⟨.vOpaque 9, 0, 60000⟩)],
        repositoryState := some ⟨"/r", "r", none, none, [], false, false, false, 0⟩ }
      (some "status") none none none 5).1
      = { cache := [("x", ⟨.vOpaque 9, 0, 60000⟩)],
          repositoryState := some ⟨"/r", "r", none, none, [], false, false, false, 0⟩ } ∧
    alistLookup (RepositoryManager.refreshCache
      { cache := [("x", ⟨.vOpaque 9, 0, 60000⟩)],
        repositoryState := some ⟨"/r", "r", none, none, [], false, false, false, 0⟩ }
      none none (some ([⟨"main", true⟩], [])) (some [⟨"origin"⟩]) 5).1.cache "remotes"
      = some ⟨.vRemotes [⟨"origin"⟩], 5, RepositoryManager.DEFAULT_TTL⟩ := by
  have h := failed_refresh_spares_other_domains
    { cache := [("x", ⟨.vOpaque 9, 0, 60000⟩)],
      repositoryState := some ⟨"/r", "r", none, none, [], false, false, false, 0⟩ }
    ⟨"/r", "r", none, none, [], false, false, false, 0⟩ none none none
    [⟨"main", true⟩] [] [⟨"origin"⟩] 5 rfl
  refine ⟨?_, h.2.2.2.2.2.1⟩
  rw [h.1]
  decide

/-- C4 counterexample: the cache entry for the refreshed key is NOT still
present after a failed refresh — `refreshCache` deletes it up front. -/
theorem failed_refresh_entry_gone_cex :
    alistLookup (RepositoryManager.refreshCache
      { cache := [("status", ⟨.vOpaque 3, 0, 60000⟩)],
        repositoryState := some ⟨"/r", "r", none, none, [], false, false, false, 0⟩ }
      (some "status") none none none 5).1.cache "status" = none ∧
    alistLookup ({ cache := [("status", ⟨CVal.vOpaque 3, 0, 60000⟩)],
                   repositoryState := some ⟨"/r", "r", none, none, [], false, false,
                     false, 0⟩ }
      : RepositoryManager).cache "status" = some ⟨.vOpaque 3, 0, 60000⟩ := by
  exact ⟨by decide, by decide⟩

/-- C8 (amended): `setActiveRepository` replaces the `RepositoryState`
wholesale, clears every cache entry and emits a "repository detected" event —
but it is NOT the only operation that can wipe the cache: `refreshCache` with
no key clears the entire cache as well (see `keyless_refresh_wipes_cache_cex`;
`clearCache` does too).  The remaining operations — get, set, invalidate with
a specific key, refresh with a key, scheduleRefresh, cancelRefresh — leave
every entry under a key they do not target in place, so none of them can
remove all entries at once. -/
theorem setActiveRepository_wipes_cache_others_preserve
    (rm : RepositoryManager) (p k k' : String) (v : CVal) (ttl : Option Nat)
    (gS : Option (GitStatus × Branch)) (gB : Option (List Branch × List Branch))
    (gR : Option (List Remote)) (now d : Nat)
    (hkk : k' ≠ k) (hdo : ¬ k' ∈ RepositoryManager.domainKeys k) :
    RepositoryManager.setActiveRepository rm true p now =
      some ({ rm with
              repositoryState := some ⟨p, RepositoryManager.basename p, none, none,
                [], false, false, false, now⟩
              cache := [] },
        RepositoryManager.emitIfBus rm .RepositoryDetected) ∧
    alistLookup (RepositoryManager.getFromCache rm k now).2.cache k'
      = alistLookup rm.cache k' ∧
    alistLookup (RepositoryManager.setCache rm k v ttl now).cache k'
      = alistLookup rm.cache k' ∧
    alistLookup (RepositoryManager.invalidateCacheKey rm k).1.cache k'
      = alistLookup rm.cache k' ∧
    alistLookup (RepositoryManager.refreshCache rm (some k) gS gB gR now).1.cache k'
      = alistLookup rm.cache k' ∧
    (RepositoryManager.scheduleRefresh rm k now d).cache = rm.cache ∧
    (RepositoryManager.cancelRefresh rm k).cache = rm.cache := by
  refine ⟨rfl, ?_, ?_, ?_, ?_, rfl, ?_⟩
  · unfold RepositoryManager.getFromCache
    cases alistLookup rm.cache k with
    | none => rfl
    | some e =>
      dsimp only
      split
      · exact alistLookup_erase_ne _ _ _ hkk
      · rfl
  · exact alistLookup_insert_ne _ _ _ _ hkk
  · exact alistLookup_erase_ne _ _ _ hkk
  · exact refreshCache_keyed_other_keys rm k k' gS gB gR now hkk hdo
  · unfold RepositoryManager.cancelRefresh
    cases alistLookup rm.refreshTimers k <;> rfl

/-- C8 witness: a concrete instance of the wipe-and-preserve properties. -/
theorem setActiveRepository_wipes_cache_others_preserve_witness :
    RepositoryManager.setActiveRepository
      ({ cache := [("y", ⟨.vOpaque 2, 0, 60000⟩)] } : RepositoryManager) true "/a/b" 9 =
      some ({ cache := [],
              repositoryState := some ⟨"/a/b", RepositoryManager.basename "/a/b",
                none, none, [], false, false, false, 9⟩ },
        [.RepositoryDetected]) ∧
    alistLookup (RepositoryManager.refreshCache
      ({ cache := [("y", ⟨.vOpaque 2, 0, 60000⟩)] } : RepositoryManager)
      (some "status") none none none 9).1.cache "y" = some ⟨.vOpaque 2, 0, 60000⟩ := by
  have h := setActiveRepository_wipes_cache_others_preserve
    ({ cache := [("y", ⟨.vOpaque 2, 0, 60000⟩)] } : RepositoryManager)
    "/a/b" "status" "y" (.vOpaque 0) none none none none 9 0
    (by decide) (by decide)
  refine ⟨?_, ?_⟩
  · rw [h.1]; rfl
  · rw [h.2.2.2.2.1]; decide

/-- C8 counterexample: `refreshCache()` with no key clears the entire cache
(`this.cache.clear()`), so `setActiveRepository` is not the only operation
that wipes it — refuting the "no other operation removes all entries at once"
part for "refresh without a key". -/
theorem keyless_refresh_wipes_cache_cex :
    ({ cache := [("foo", ⟨CVal.vOpaque 3, 0, 60000⟩)] } : RepositoryManager).cache ≠ [] ∧
    (RepositoryManager.refreshCache
      ({ cache := [("foo", ⟨.vOpaque 3, 0, 60000⟩)] } : RepositoryManager)
      none none none none 5).1.cache = [] := by
  exact ⟨by decide, by decide⟩

/-! ## Optimistic View Cache lemmas -/

theorem scheduleRefresh_pending_id (st : ChangesProvider.State) (t : Nat)
    (h : st.refreshTimer.isSome) : ChangesProvider.scheduleRefresh st t = st := by
  rcases Option.isSome_iff_exists.mp h with ⟨d, hd⟩
  unfold ChangesProvider.scheduleRefresh
  rw [hd]

theorem scheduleBurst_after_first (st : ChangesProvider.State) (ts : List Nat)
    (h : st.refreshTimer.isSome) : ChangesProvider.scheduleBurst st ts = st := by
  induction ts with
  | nil => rfl
  | cons t rest ih =>
    show ChangesProvider.scheduleBurst (ChangesProvider.scheduleRefresh st t) rest = st
    rw [scheduleRefresh_pending_id st t h]
    exact ih

/-- C6 (amended): a burst of `scheduleRefresh` calls, each arriving while the
previous timer is still pending, executes exactly one refresh — but the timer
is NOT reset by the repeated calls: they return early, so the refresh fires
one debounce window after the FIRST call of the burst, and the timer is clear
afterwards.  (The "timed from the last call" part of the claim is refuted by
`debounce_timer_not_reset_cex`; the reset behaviour exists only in
`RepositoryManager.scheduleRefresh`, not in the changes view's.) -/
theorem debounce_burst_single_refresh_from_first_call
    (st : ChangesProvider.State) (t1 : Nat) (ts : List Nat)
    (h : st.refreshTimer = none) :
    (ChangesProvider.scheduleBurst st (t1 :: ts)).refreshTimer
      = some (t1 + ChangesProvider.REFRESH_DEBOUNCE_MS) ∧
    (ChangesProvider.fireTimer (ChangesProvider.scheduleBurst st (t1 :: ts))).2 = 1 ∧
    (ChangesProvider.fireTimer
      (ChangesProvider.scheduleBurst st (t1 :: ts))).1.refreshTimer = none := by
  have hs1 : ChangesProvider.scheduleRefresh st t1
      = { st with refreshTimer := some (t1 + ChangesProvider.REFRESH_DEBOUNCE_MS) } := by
    unfold ChangesProvider.scheduleRefresh
    rw [h]
  have hb : ChangesProvider.scheduleBurst st (t1 :: ts)
      = { st with refreshTimer := some (t1 + ChangesProvider.REFRESH_DEBOUNCE_MS) } := by
    show ChangesProvider.scheduleBurst (ChangesProvider.scheduleRefresh st t1) ts = _
    rw [hs1]
    exact scheduleBurst_after_first _ ts rfl
  rw [hb]
  exact ⟨rfl, rfl, rfl⟩

/-- C6 witness: two calls at t=0 and t=50 arm one timer for t=150 and firing
it performs exactly one refresh. -/
theorem debounce_burst_single_refresh_witness :
    (ChangesProvider.scheduleBurst ({} : ChangesProvider.State) [0, 50]).refreshTimer
      = some 150 ∧
    (ChangesProvider.fireTimer
      (ChangesProvider.scheduleBurst ({} : ChangesProvider.State) [0, 50])).2 = 1 := by
  have hw := debounce_burst_single_refresh_from_first_call
    ({} : ChangesProvider.State) 0 [50] rfl
  exact ⟨hw.1, hw.2.1⟩

/-- C6 counterexample: with calls at t=0 and t=50 and a 150 ms window, the
pending timer still fires at t=150 — one window after the FIRST call — not at
t=200 as "the timer is reset by each repeated call" requires, because
`ChangesProvider.scheduleRefresh` returns early when a timer is pending. -/
theorem debounce_timer_not_reset_cex :
    (ChangesProvider.scheduleRefresh
      (ChangesProvider.scheduleRefresh ({} : ChangesProvider.State) 0) 50).refreshTimer
      = some 150 ∧
    (ChangesProvider.scheduleRefresh
      (ChangesProvider.scheduleRefresh ({} : ChangesProvider.State) 0) 50).refreshTimer
      ≠ some (50 + ChangesProvider.REFRESH_DEBOUNCE_MS) := by
  exact ⟨by decide, by decide⟩

theorem getStatus_miss_attach (st : ChangesProvider.State) (t q : Nat)
    (hmiss : st.statusCache = none ∨ st.statusCacheExpiry ≤ t)
    (hf : st.statusInFlight = some q) :
    ChangesProvider.getStatus st t = (st, .pending q, false) := by
  unfold ChangesProvider.getStatus ChangesProvider.startOrJoin
  rcases hmiss with hc | he
  · rw [hc, hf]
  · cases hsc : st.statusCache with
    | none => rw [hf]
    | some sc =>
      rw [hf]
      have hnl : ¬ t < st.statusCacheExpiry := by omega
      simp [hnl]

theorem getStatus_miss_start (st : ChangesProvider.State) (t : Nat)
    (hmiss : st.statusCache = none ∨ st.statusCacheExpiry ≤ t)
    (hf : st.statusInFlight = none) :
    ChangesProvider.getStatus st t
      = ({ st with
           statusInFlight := some st.nextPid
           nextPid := st.nextPid + 1
           fetchCount := st.fetchCount + 1 }, .pending st.nextPid, true) := by
  unfold ChangesProvider.getStatus ChangesProvider.startOrJoin
  rcases hmiss with hc | he
  · rw [hc, hf]
  · cases hsc : st.statusCache with
    | none => rw [hf]
    | some sc =>
      rw [hf]
      have hnl : ¬ t < st.statusCacheExpiry := by omega
      simp [hnl]

theorem getStatusBurst_attach (st : ChangesProvider.State) (ts : List Nat) (q : Nat)
    (hm : ∀ t ∈ ts, st.statusCache = none ∨ st.statusCacheExpiry ≤ t)
    (hf : st.statusInFlight = some q) :
    ChangesProvider.getStatusBurst st ts
      = (st, ts.map (fun _ => .pending q), 0) := by
  induction ts with
  | nil => rfl
  | cons t rest ih =>
    simp only [ChangesProvider.getStatusBurst]
    rw [getStatus_miss_attach st t q (hm t (by simp)) hf]
    dsimp only
    rw [ih (fun t' ht' => hm t' (by simp [ht']))]
    rfl

/-- C3: N ≥ 1 interleaved `getStatus` calls, each finding no unexpired cached
snapshot and none separated by a fetch completion, start exactly one backend
fetch; every caller receives the same pending promise; and completing that
fetch — successfully or not — clears the in-flight marker (`finally`). -/
theorem getStatus_single_flight (st : ChangesProvider.State) (t1 : Nat) (ts : List Nat)
    (hm1 : st.statusCache = none ∨ st.statusCacheExpiry ≤ t1)
    (hm : ∀ t ∈ ts, st.statusCache = none ∨ st.statusCacheExpiry ≤ t)
    (hf : st.statusInFlight = none) :
    (ChangesProvider.getStatusBurst st (t1 :: ts)).2.2 = 1 ∧
    (∀ r ∈ (ChangesProvider.getStatusBurst st (t1 :: ts)).2.1,
      r = .pending st.nextPid) ∧
    (ChangesProvider.getStatusBurst st (t1 :: ts)).1.statusInFlight
      = some st.nextPid ∧
    ∀ (ok : Bool) (ne : List FileEntry) (sc : GitStatusH) (t2 : Nat),
      (ChangesProvider.fetchComplete (ChangesProvider.getStatusBurst st (t1 :: ts)).1
        ok ne sc t2).statusInFlight = none := by
  have hb := getStatusBurst_attach
    { st with
      statusInFlight := some st.nextPid
      nextPid := st.nextPid + 1
      fetchCount := st.fetchCount + 1 } ts st.nextPid (fun t ht => hm t ht) rfl
  have hburst : ChangesProvider.getStatusBurst st (t1 :: ts)
      = ({ st with
           statusInFlight := some st.nextPid
           nextPid := st.nextPid + 1
           fetchCount := st.fetchCount + 1 },
         .pending st.nextPid :: ts.map (fun _ => .pending st.nextPid), 1) := by
    simp only [ChangesProvider.getStatusBurst]
    rw [getStatus_miss_start st t1 hm1 hf]
    dsimp only
    rw [hb]
    rfl
  rw [hburst]
  refine ⟨rfl, ?_, rfl, ?_⟩
  · intro r hr
    rcases List.mem_cons.mp hr with h1 | h2
    · exact h1
    · rcases List.mem_map.mp h2 with ⟨t, _, ht⟩
      exact ht.symm
  · intro ok ne sc t2
    cases ok <;> rfl

/-- C3 witness: three interleaved calls on an empty provider start exactly one
fetch, all receive promise 0, and a failed completion clears the marker. -/
theorem getStatus_single_flight_witness :
    (ChangesProvider.getStatusBurst ({} : ChangesProvider.State) [0, 1, 2]).2.2 = 1 ∧
    (ChangesProvider.getStatusBurst ({} : ChangesProvider.State) [0, 1, 2]).2.1
      = [.pending 0, .pending 0, .pending 0] ∧
    (ChangesProvider.fetchComplete
      (ChangesProvider.getStatusBurst ({} : ChangesProvider.State) [0, 1, 2]).1
      false [] ⟨[], [], [], [], []⟩ 9).statusInFlight = none := by
  have h := getStatus_single_flight ({} : ChangesProvider.State) 0 [1, 2]
    (Or.inl rfl) (fun t _ => Or.inl rfl) rfl
  exact ⟨h.1, by decide, h.2.2.2 false [] ⟨[], [], [], [], []⟩ 9⟩

/-- C10: with no cached snapshot, `afterStage` and `afterUnstage` are complete
no-ops — the provider state (cache, store, in-flight marker, counters) is
unchanged, so no snapshot is fabricated and no backend call is made — and the
next `getStatus` with no fetch in flight still starts a real backend fetch. -/
theorem optimistic_patch_noop_without_snapshot
    (st : ChangesProvider.State) (p p2 : String) (now now2 t2 : Nat)
    (h : st.statusCache = none) :
    ChangesProvider.updateStatusCacheAfterStage st p now = st ∧
    ChangesProvider.updateStatusCacheAfterUnstage st p2 now2 = st ∧
    (st.statusInFlight = none →
      (ChangesProvider.getStatus st t2).2.2 = true ∧
      (ChangesProvider.getStatus st t2).2.1 = .pending st.nextPid) := by
  refine ⟨?_, ?_, ?_⟩
  · unfold ChangesProvider.updateStatusCacheAfterStage
    rw [h]
  · unfold ChangesProvider.updateStatusCacheAfterUnstage
    rw [h]
  · intro hf
    rw [getStatus_miss_start st t2 (Or.inl h) hf]
    exact ⟨rfl, rfl⟩

/-- C10 witness: on an empty provider the stage patch is the identity and the
next `getStatus` starts a fetch. -/
theorem optimistic_patch_noop_without_snapshot_witness :
    ChangesProvider.updateStatusCacheAfterStage ({} : ChangesProvider.State) "a.ts" 3
      = ({} : ChangesProvider.State) ∧
    (ChangesProvider.getStatus ({} : ChangesProvider.State) 5).2.2 = true := by
  have h := optimistic_patch_noop_without_snapshot ({} : ChangesProvider.State)
    "a.ts" "b.ts" 3 4 5 rfl
  exact ⟨h.1, (h.2.2 rfl).1⟩

theorem readE_set_ne (h : Heap) (r0 r : Nat) (f : FileEntry) (hne : r ≠ r0) :
    readE (h.set r0 f) r = readE h r := by
  unfold readE
  rw [List.getD_eq_getElem?_getD, List.getD_eq_getElem?_getD,
    List.getElem?_set_ne (fun he => hne he.symm)]

theorem readE_set_self (h : Heap) (r0 : Nat) (f : FileEntry) (hlt : r0 < h.length) :
    readE (h.set r0 f) r0 = f := by
  unfold readE
  rw [List.getD_eq_getElem?_getD, List.getElem?_set_self hlt]
  rfl

theorem readE_append_lt (h h2 : Heap) (r : Nat) (hlt : r < h.length) :
    readE (h ++ h2) r = readE h r := by
  unfold readE
  rw [List.getD_eq_getElem?_getD, List.getD_eq_getElem?_getD,
    List.getElem?_append_left hlt]

theorem readE_concat_length (h : Heap) (f : FileEntry) :
    readE (h ++ [f]) h.length = f := by
  unfold readE
  rw [List.getD_eq_getElem?_getD, List.getElem?_concat_length h f]
  rfl

/-- The two possible store updates performed by `updateStatusCacheAfterStage`:
either no entry matches the path and the store is untouched, or the first
matching `files` entry is overwritten in place with `indexStatus = Modified`
(and, when the path was not yet staged, a clone of it is allocated). -/
theorem afterStage_heap_cases (st : ChangesProvider.State) (sc : GitStatusH)
    (p : String) (now : Nat) (hc : st.statusCache = some sc) :
    (ChangesProvider.updateStatusCacheAfterStage st p now).heap = st.heap ∨
    ∃ r0, sc.files.find? (fun r => decide ((readE st.heap r).path = p)) = some r0 ∧
      ((ChangesProvider.updateStatusCacheAfterStage st p now).heap
          = st.heap.set r0 { readE st.heap r0 with indexStatus := .Modified } ∨
       (ChangesProvider.updateStatusCacheAfterStage st p now).heap
          = st.heap.set r0 { readE st.heap r0 with indexStatus := .Modified }
            ++ [{ readE st.heap r0 with indexStatus := .Modified }]) := by
  cases hfind : sc.files.find? (fun r => decide ((readE st.heap r).path = p)) with
  | none =>
    left
    simp only [ChangesProvider.updateStatusCacheAfterStage, hc, hfind]
    rfl
  | some r0 =>
    refine Or.inr ⟨r0, rfl, ?_⟩
    simp only [ChangesProvider.updateStatusCacheAfterStage, hc, hfind]
    split
    · left; rfl
    · right; rfl

/-- Same case analysis for `updateStatusCacheAfterUnstage`
(`indexStatus = Unmodified`). -/
theorem afterUnstage_heap_cases (st : ChangesProvider.State) (sc : GitStatusH)
    (p : String) (now : Nat) (hc : st.statusCache = some sc) :
    (ChangesProvider.updateStatusCacheAfterUnstage st p now).heap = st.heap ∨
    ∃ r0, sc.files.find? (fun r => decide ((readE st.heap r).path = p)) = some r0 ∧
      ((ChangesProvider.updateStatusCacheAfterUnstage st p now).heap
          = st.heap.set r0 { readE st.heap r0 with indexStatus := .Unmodified } ∨
       (ChangesProvider.updateStatusCacheAfterUnstage st p now).heap
          = st.heap.set r0 { readE st.heap r0 with indexStatus := .Unmodified }
            ++ [{ readE st.heap r0 with indexStatus := .Unmodified }]) := by
  cases hfind : sc.files.find? (fun r => decide ((readE st.heap r).path = p)) with
  | none =>
    left
    simp only [ChangesProvider.updateStatusCacheAfterUnstage, hc, hfind]
    rfl
  | some r0 =>
    refine Or.inr ⟨r0, rfl, ?_⟩
    simp only [ChangesProvider.updateStatusCacheAfterUnstage, hc, hfind]
    split
    · left; rfl
    · right; rfl

theorem readE_patched_heap (h : Heap) (r0 r : Nat) (f1 : FileEntry)
    (hr : r < h.length)
    (hcase : h2 = h.set r0 f1 ∨ h2 = h.set r0 f1 ++ [f1]) :
    readE h2 r = (if r = r0 then (if r0 < h.length then f1 else readE h r)
      else readE h r) := by
  have hread : readE (h.set r0 f1) r
      = (if r = r0 then (if r0 < h.length then f1 else readE h r) else readE h r) := by
    by_cases he : r = r0
    · subst he
      by_cases hl : r < h.length
      · simp [readE_set_self h r f1 hl, hl]
      · have : h.set r f1 = h := List.set_eq_of_length_le (by omega)
        simp [this, hl]
    · simp [he, readE_set_ne h r0 r f1 he]
  rcases hcase with hc | hc
  · rw [hc, hread]
  · rw [hc, readE_append_lt _ _ r (by simpa using hr), hread]

/-- C2 (amended): the optimistic patches replace the snapshot object and its
partition arrays copy-on-write and never touch an entry whose path differs
from the patched path — but the `FileEntry` of the shared `files` array that
matches the path IS mutated in place (its `indexStatus` set to `Modified` /
`Unmodified`), so a reader holding the prior snapshot observes that entry
change.  Every in-bounds entry is either untouched or exactly that
status-mutated entry. -/
theorem optimistic_patch_mutates_only_matched_entry
    (st : ChangesProvider.State) (sc : GitStatusH) (p p2 : String) (now now2 : Nat)
    (hc : st.statusCache = some sc) :
    (∀ r, r < st.heap.length → (readE st.heap r).path ≠ p →
      readE (ChangesProvider.updateStatusCacheAfterStage st p now).heap r
        = readE st.heap r) ∧
    (∀ r, r < st.heap.length →
      readE (ChangesProvider.updateStatusCacheAfterStage st p now).heap r
          = readE st.heap r ∨
      readE (ChangesProvider.updateStatusCacheAfterStage st p now).heap r
          = { readE st.heap r with indexStatus := .Modified }) ∧
    (∀ r, r < st.heap.length → (readE st.heap r).path ≠ p2 →
      readE (ChangesProvider.updateStatusCacheAfterUnstage st p2 now2).heap r
        = readE st.heap r) ∧
    (∀ r, r < st.heap.length →
      readE (ChangesProvider.updateStatusCacheAfterUnstage st p2 now2).heap r
          = readE st.heap r ∨
      readE (ChangesProvider.updateStatusCacheAfterUnstage st p2 now2).heap r
          = { readE st.heap r with indexStatus := .Unmodified }) := by
  have hstage := afterStage_heap_cases st sc p now hc
  have hunstage := afterUnstage_heap_cases st sc p2 now2 hc
  refine ⟨?_, ?_, ?_, ?_⟩
  · intro r hr hne
    rcases hstage with hh | ⟨r0, hfind, hcase⟩
    · rw [hh]
    · have hp0 : (readE st.heap r0).path = p := by
        have := List.find?_some hfind
        simpa using this
      have hrne : r ≠ r0 := fun he => hne (he ▸ hp0)
      rw [readE_patched_heap st.heap r0 r _ hr hcase]
      simp [hrne]
  · intro r hr
    rcases hstage with hh | ⟨r0, hfind, hcase⟩
    · rw [hh]; exact Or.inl rfl
    · rw [readE_patched_heap st.heap r0 r _ hr hcase]
      by_cases he : r = r0
      · subst he
        simp [hr]
      · simp [he]
  · intro r hr hne
    rcases hunstage with hh | ⟨r0, hfind, hcase⟩
    · rw [hh]
    · have hp0 : (readE st.heap r0).path = p2 := by
        have := List.find?_some hfind
        simpa using this
      have hrne : r ≠ r0 := fun he => hne (he ▸ hp0)
      rw [readE_patched_heap st.heap r0 r _ hr hcase]
      simp [hrne]
  · intro r hr
    rcases hunstage with hh | ⟨r0, hfind, hcase⟩
    · rw [hh]; exact Or.inl rfl
    · rw [readE_patched_heap st.heap r0 r _ hr hcase]
      by_cases he : r = r0
      · subst he
        simp [hr]
      · simp [he]

/-- C2 witness: on a concrete snapshot the entry with a different path is
untouched by the stage patch, and the matching entry changes only its
`indexStatus`. -/
theorem optimistic_patch_mutates_only_matched_entry_witness :
    readE (ChangesProvider.updateStatusCacheAfterStage
      { heap := [⟨"a.ts", .Unmodified, .Modified⟩, ⟨"b.ts", .Unmodified, .Modified⟩],
        statusCache := some ⟨[0, 1], [], [0, 1], [], []⟩, statusCacheExpiry := 400 }
      "a.ts" 100).heap 1 = ⟨"b.ts", .Unmodified, .Modified⟩ ∧
    (readE (ChangesProvider.updateStatusCacheAfterStage
      { heap := [⟨"a.ts", .Unmodified, .Modified⟩, ⟨"b.ts", .Unmodified, .Modified⟩],
        statusCache := some ⟨[0, 1], [], [0, 1], [], []⟩, statusCacheExpiry := 400 }
      "a.ts" 100).heap 0 = ⟨"a.ts", .Unmodified, .Modified⟩ ∨
     readE (ChangesProvider.updateStatusCacheAfterStage
      { heap := [⟨"a.ts", .Unmodified, .Modified⟩, ⟨"b.ts", .Unmodified, .Modified⟩],
        statusCache := some ⟨[0, 1], [], [0, 1], [], []⟩, statusCacheExpiry := 400 }
      "a.ts" 100).heap 0 = ⟨"a.ts", .Modified, .Modified⟩) := by
  have h := optimistic_patch_mutates_only_matched_entry
    { heap := [⟨"a.ts", .Unmodified, .Modified⟩, ⟨"b.ts", .Unmodified, .Modified⟩],
      statusCache := some ⟨[0, 1], [], [0, 1], [], []⟩, statusCacheExpiry := 400 }
    ⟨[0, 1], [], [0, 1], [], []⟩ "a.ts" "a.ts" 100 100 rfl
  exact ⟨h.1 1 (by decide) (by decide), h.2.1 0 (by decide)⟩

/-- C2 counterexample: `afterStage` mutates the `FileEntry` shared with the
previously cached snapshot in place — a reader holding the prior snapshot sees
its unstaged entry's `indexStatus` flip from `Unmodified` to `Modified`, so
the reachable entries of the prior snapshot are NOT left unmodified. -/
theorem optimistic_patch_mutation_visible_cex :
    readE ({ heap := [⟨"a.ts", .Unmodified, .Modified⟩],
             statusCache := some ⟨[0], [], [0], [], []⟩, statusCacheExpiry := 400 }
      : ChangesProvider.State).heap 0 = ⟨"a.ts", .Unmodified, .Modified⟩ ∧
    readE (ChangesProvider.updateStatusCacheAfterStage
      { heap := [⟨"a.ts", .Unmodified, .Modified⟩],
        statusCache := some ⟨[0], [], [0], [], []⟩, statusCacheExpiry := 400 }
      "a.ts" 100).heap 0 ≠ ⟨"a.ts", .Unmodified, .Modified⟩ := by
  exact ⟨by decide, by decide⟩

theorem filtered_refs_keep_paths (h h2 : Heap) (r0 : Nat) (f1 : FileEntry)
    (l : List Nat) (p : String) (hp0 : (readE h r0).path = p)
    (hbnd : ∀ r ∈ l, r < h.length)
    (hcase : h2 = h.set r0 f1 ∨ h2 = h.set r0 f1 ++ [f1]) :
    p ∉ pathsOf h2 (l.filter (fun r => decide (¬ (readE h r).path = p))) := by
  intro hmem
  rcases List.mem_map.mp hmem with ⟨r, hr, hrp⟩
  have hold : (readE h r).path ≠ p := by simpa using List.of_mem_filter hr
  have hrl : r < h.length := hbnd r (List.mem_of_mem_filter hr)
  have hrne : r ≠ r0 := fun he => hold (he ▸ hp0)
  have heq : readE h2 r = readE h r := by
    rcases hcase with hcc | hcc
    · rw [hcc, readE_set_ne _ _ _ _ hrne]
    · rw [hcc, readE_append_lt _ _ r (by simpa using hrl), readE_set_ne _ _ _ _ hrne]
  exact hold (heq ▸ hrp)

/-- C9: on a cached snapshot that lists `p` as unstaged or untracked (with the
snapshot's partitions derivable from `files` and its references in bounds, as
every snapshot produced by the backend parse or by earlier patches is),
`afterStage p` starts no backend fetch and leaves the in-flight marker alone,
and the next `getStatus` within the (renewed) TTL serves a cached snapshot in
which `p` is staged and neither unstaged nor untracked. -/
theorem afterStage_moves_path_to_staged
    (st : ChangesProvider.State) (sc : GitStatusH) (p : String) (now now2 : Nat)
    (hc : st.statusCache = some sc)
    (hp : p ∈ pathsOf st.heap sc.unstaged ∨ p ∈ pathsOf st.heap sc.untracked)
    (hwf1 : ∀ q ∈ pathsOf st.heap sc.unstaged, q ∈ pathsOf st.heap sc.files)
    (hwf2 : ∀ q ∈ pathsOf st.heap sc.untracked, q ∈ pathsOf st.heap sc.files)
    (hb : ∀ r ∈ sc.staged ++ sc.unstaged ++ sc.untracked, r < st.heap.length)
    (ht : now2 < now + ChangesProvider.STATUS_CACHE_TTL_MS) :
    (ChangesProvider.updateStatusCacheAfterStage st p now).fetchCount
      = st.fetchCount ∧
    (ChangesProvider.updateStatusCacheAfterStage st p now).statusInFlight
      = st.statusInFlight ∧
    ∃ sc2,
      ChangesProvider.getStatus
          (ChangesProvider.updateStatusCacheAfterStage st p now) now2
        = (ChangesProvider.updateStatusCacheAfterStage st p now, .cached sc2, false) ∧
      p ∈ pathsOf (ChangesProvider.updateStatusCacheAfterStage st p now).heap
          sc2.staged ∧
      p ∉ pathsOf (ChangesProvider.updateStatusCacheAfterStage st p now).heap
          sc2.unstaged ∧
      p ∉ pathsOf (ChangesProvider.updateStatusCacheAfterStage st p now).heap
          sc2.untracked := by
  have hpf : p ∈ pathsOf st.heap sc.files := by
    rcases hp with hp | hp
    · exact hwf1 p hp
    · exact hwf2 p hp
  have hex : ∃ r ∈ sc.files, (fun r => decide ((readE st.heap r).path = p)) r = true := by
    rcases List.mem_map.mp hpf with ⟨r, hr, hrp⟩
    exact ⟨r, hr, by simp [hrp]⟩
  rcases Option.isSome_iff_exists.mp (List.find?_isSome.mpr hex) with ⟨r0, hfind⟩
  have hp0 : (readE st.heap r0).path = p := by simpa using List.find?_some hfind
  have hbu : ∀ r ∈ sc.unstaged, r < st.heap.length :=
    fun r hr => hb r (by simp [hr])
  have hbt : ∀ r ∈ sc.untracked, r < st.heap.length :=
    fun r hr => hb r (by simp [hr])
  cases hsf : sc.staged.find? (fun r => decide ((readE (st.heap.set r0
      { readE st.heap r0 with indexStatus := .Modified }) r).path = p)) with
  | some r2 =>
    have hst' : ChangesProvider.updateStatusCacheAfterStage st p now
        = ChangesProvider.setStatusCache
            { st with heap := st.heap.set r0
                                ({ readE st.heap r0 with indexStatus := .Modified }) }
            { sc with
              unstaged := sc.unstaged.filter
                (fun r => decide (¬ (readE st.heap r).path = p))
              untracked := sc.untracked.filter
                (fun r => decide (¬ (readE st.heap r).path = p)) }
            now := by
      simp only [ChangesProvider.updateStatusCacheAfterStage, hc, hfind, hsf]
      rfl
    rw [hst']
    refine ⟨rfl, rfl,
      { sc with
        unstaged := sc.unstaged.filter (fun r => decide (¬ (readE st.heap r).path = p))
        untracked := sc.untracked.filter
          (fun r => decide (¬ (readE st.heap r).path = p)) },
      ?_, ?_, ?_, ?_⟩
    · unfold ChangesProvider.getStatus
      dsimp only [ChangesProvider.setStatusCache]
      rw [if_pos ht]
    · exact List.mem_map.mpr ⟨r2, List.mem_of_find?_eq_some hsf,
        by simpa using List.find?_some hsf⟩
    · exact filtered_refs_keep_paths st.heap _ r0 _ sc.unstaged p hp0 hbu (Or.inl rfl)
    · exact filtered_refs_keep_paths st.heap _ r0 _ sc.untracked p hp0 hbt (Or.inl rfl)
  | none =>
    have hst' : ChangesProvider.updateStatusCacheAfterStage st p now
        = ChangesProvider.setStatusCache
            { st with heap := st.heap.set r0
                                ({ readE st.heap r0 with indexStatus := .Modified })
                              ++ [{ readE st.heap r0 with indexStatus := .Modified }] }
            { sc with
              unstaged := sc.unstaged.filter
                (fun r => decide (¬ (readE st.heap r).path = p))
              untracked := sc.untracked.filter
                (fun r => decide (¬ (readE st.heap r).path = p))
              staged := sc.staged ++ [(st.heap.set r0
                ({ readE st.heap r0 with indexStatus := .Modified })).length] }
            now := by
      simp only [ChangesProvider.updateStatusCacheAfterStage, hc, hfind, hsf]
      rfl
    rw [hst']
    refine ⟨rfl, rfl,
      { sc with
        unstaged := sc.unstaged.filter (fun r => decide (¬ (readE st.heap r).path = p))
        untracked := sc.untracked.filter
          (fun r => decide (¬ (readE st.heap r).path = p))
        staged := sc.staged ++ [(st.heap.set r0
          ({ readE st.heap r0 with indexStatus := .Modified })).length] },
      ?_, ?_, ?_, ?_⟩
    · unfold ChangesProvider.getStatus
      dsimp only [ChangesProvider.setStatusCache]
      rw [if_pos ht]
    · refine List.mem_map.mpr ⟨(st.heap.set r0
        { readE st.heap r0 with indexStatus := .Modified }).length, by simp, ?_⟩
      show (readE ((st.heap.set r0 { readE st.heap r0 with indexStatus := .Modified })
        ++ [{ readE st.heap r0 with indexStatus := .Modified }])
        (st.heap.set r0 { readE st.heap r0 with indexStatus := .Modified }).length).path
        = p
      rw [readE_concat_length]
      exact hp0
    · exact filtered_refs_keep_paths st.heap _ r0 _ sc.unstaged p hp0 hbu (Or.inr rfl)
    · exact filtered_refs_keep_paths st.heap _ r0 _ sc.untracked p hp0 hbt (Or.inr rfl)

/-- C9 witness: a repository with one unstaged file `a.ts`; after
`afterStage("a.ts")` the next read (within the TTL) serves a snapshot with
`a.ts` staged and neither unstaged nor untracked, and no fetch was started. -/
theorem afterStage_moves_path_to_staged_witness :
    (ChangesProvider.updateStatusCacheAfterStage
      { heap := [⟨"a.ts", .Unmodified, .Modified⟩],
        statusCache := some ⟨[0], [], [0], [], []⟩, statusCacheExpiry := 400 }
      "a.ts" 100).fetchCount = 0 ∧
    (∃ sc2,
      ChangesProvider.getStatus
          (ChangesProvider.updateStatusCacheAfterStage
            { heap := [⟨"a.ts", .Unmodified, .Modified⟩],
              statusCache := some ⟨[0], [], [0], [], []⟩, statusCacheExpiry := 400 }
            "a.ts" 100) 200
        = (ChangesProvider.updateStatusCacheAfterStage
            { heap := [⟨"a.ts", .Unmodified, .Modified⟩],
              statusCache := some ⟨[0], [], [0], [], []⟩, statusCacheExpiry := 400 }
            "a.ts" 100, .cached sc2, false) ∧
      "a.ts" ∈ pathsOf (ChangesProvider.updateStatusCacheAfterStage
          { heap := [⟨"a.ts", .Unmodified, .Modified⟩],
            statusCache := some ⟨[0], [], [0], [], []⟩, statusCacheExpiry := 400 }
          "a.ts" 100).heap sc2.staged ∧
      "a.ts" ∉ pathsOf (ChangesProvider.updateStatusCacheAfterStage
          { heap := [⟨"a.ts", .Unmodified, .Modified⟩],
            statusCache := some ⟨[0], [], [0], [], []⟩, statusCacheExpiry := 400 }
          "a.ts" 100).heap sc2.unstaged ∧
      "a.ts" ∉ pathsOf (ChangesProvider.updateStatusCacheAfterStage
          { heap := [⟨"a.ts", .Unmodified, .Modified⟩],
            statusCache := some ⟨[0], [], [0], [], []⟩, statusCacheExpiry := 400 }
          "a.ts" 100).heap sc2.untracked) := by
  have h := afterStage_moves_path_to_staged
    { heap := [⟨"a.ts", .Unmodified, .Modified⟩],
      statusCache := some ⟨[0], [], [0], [], []⟩, statusCacheExpiry := 400 }
    ⟨[0], [], [0], [], []⟩ "a.ts" 100 200 rfl (Or.inl (by decide))
    (by decide) (by decide) (by decide) (by decide)
  exact ⟨h.1, h.2.2⟩
